import Mathlib

set_option maxRecDepth 8000

/-!
Shallow embedding of `scripts/check_invisible_chars.py`.

Python strings are modelled as `List Char` (Lean `Char` is a Unicode scalar
value, which covers every character the program can produce), byte strings as
`List Nat` (each element intended `< 256`), and Python `int` as `Int`.
Fallible code returns `Except`/`Option`.  The Unicode data consulted by the
script through `str.isspace` and `unicodedata.category` is embedded as the
concrete codepoint tables of the CPython runtime (Unicode 14.0); the
`Finding.name`/`Finding.category` display fields derived from `unicodedata`
are omitted, as no property below depends on them.
-/

namespace CheckInvisibleChars

/-- Embeds `ALLOWED_WHITESPACE = {" ", "\t", "\n", "\r"}`. -/
def ALLOWED_WHITESPACE : List Char := [' ', '\t', '\n', '\r']

/-- Embeds `VARIATION_SELECTOR_RANGES`. -/
def VARIATION_SELECTOR_RANGES : List (Nat × Nat) :=
  [(0xFE00, 0xFE0F), (0xE0100, 0xE01EF)]

/-- Embeds `_is_in_variation_selector_range`. -/
def is_in_variation_selector_range (codepoint : Nat) : Bool :=
  VARIATION_SELECTOR_RANGES.any fun r => decide (r.1 ≤ codepoint) && decide (codepoint ≤ r.2)

/-- Embeds CPython `str.isspace` (Unicode 14.0): the whitespace codepoints are
0x09-0x0D, 0x1C-0x1F, 0x20, 0x85, 0xA0, 0x1680, 0x2000-0x200A, 0x2028, 0x2029,
0x202F, 0x205F, 0x3000. -/
def py_isspace (ch : Char) : Bool :=
  let n := ch.toNat
  decide ((0x9 ≤ n ∧ n ≤ 0xD) ∨ (0x1C ≤ n ∧ n ≤ 0x20) ∨ n = 0x85 ∨ n = 0xA0 ∨
    n = 0x1680 ∨ (0x2000 ≤ n ∧ n ≤ 0x200A) ∨ n = 0x2028 ∨ n = 0x2029 ∨
    n = 0x202F ∨ n = 0x205F ∨ n = 0x3000)

/-- Embeds `unicodedata.category(ch) == "Cc"`: the control category is exactly
0x00-0x1F and 0x7F-0x9F. -/
def category_Cc (ch : Char) : Bool :=
  let n := ch.toNat
  decide (n < 0x20 ∨ (0x7F ≤ n ∧ n ≤ 0x9F))

/-- The `Cf` (format) general-category codepoint ranges of Unicode 14.0, as
consulted by the script through `unicodedata.category`. -/
def CF_RANGES : List (Nat × Nat) :=
  [(0xAD, 0xAD), (0x600, 0x605), (0x61C, 0x61C), (0x6DD, 0x6DD), (0x70F, 0x70F),
   (0x890, 0x891), (0x8E2, 0x8E2), (0x180E, 0x180E), (0x200B, 0x200F),
   (0x202A, 0x202E), (0x2060, 0x2064), (0x2066, 0x206F), (0xFEFF, 0xFEFF),
   (0xFFF9, 0xFFFB), (0x110BD, 0x110BD), (0x110CD, 0x110CD), (0x13430, 0x13438),
   (0x1BCA0, 0x1BCA3), (0x1D173, 0x1D17A), (0xE0001, 0xE0001), (0xE0020, 0xE007F)]

/-- Embeds `unicodedata.category(ch) == "Cf"`. -/
def category_Cf (ch : Char) : Bool :=
  CF_RANGES.any fun r => decide (r.1 ≤ ch.toNat) && decide (ch.toNat ≤ r.2)

/-- Embeds `unicodedata.category(ch) in {"Cc", "Cf"}`. -/
def category_is_Cc_or_Cf (ch : Char) : Bool :=
  category_Cc ch || category_Cf ch

/-- Embeds `_is_forbidden_char`. -/
def is_forbidden_char (ch : Char) : Bool :=
  if ALLOWED_WHITESPACE.contains ch then false
  else if py_isspace ch then true
  else if is_in_variation_selector_range ch.toNat then true
  else if category_is_Cc_or_Cf ch then true
  else if ch.toNat = 0x34F then true
  else false

/-- Lower-case hexadecimal digit. -/
def hex_digit (n : Nat) : Char :=
  if n < 10 then Char.ofNat (48 + n) else Char.ofNat (87 + n)

/-- Fixed-width lower-case hexadecimal rendering of `n`. -/
def to_hex_fixed (width n : Nat) : List Char :=
  (List.range width).reverse.map fun i => hex_digit (n / 16 ^ i % 16)

/-- Embeds the per-character action of CPython's `unicode_escape` codec:
backslash, tab, LF and CR get two-character escapes, printable ASCII is kept,
and every other character becomes `\xhh`, `\uhhhh` or `\Uhhhhhhhh`. -/
def unicode_escape_char (c : Char) : List Char :=
  if c = '\\' then ['\\', '\\']
  else if c = '\t' then ['\\', 't']
  else if c = '\n' then ['\\', 'n']
  else if c = '\r' then ['\\', 'r']
  else if 0x20 ≤ c.toNat ∧ c.toNat ≤ 0x7E then [c]
  else if c.toNat < 0x100 then '\\' :: 'x' :: to_hex_fixed 2 c.toNat
  else if c.toNat ≤ 0xFFFF then '\\' :: 'u' :: to_hex_fixed 4 c.toNat
  else '\\' :: 'U' :: to_hex_fixed 8 c.toNat

/-- Embeds `line.encode("unicode_escape", ...).decode("ascii", ...)`: the
escape output is pure ASCII, so the ascii decode is the identity. -/
def unicode_escape (line : List Char) : List Char :=
  (line.map unicode_escape_char).flatten

/-- Embeds `_render_line`. -/
def render_line (line : List Char) (max_len : Nat := 240) : List Char :=
  let rendered := unicode_escape line
  if max_len < rendered.length then rendered.take (max_len - 3) ++ ['.', '.', '.']
  else rendered

/-- The codepoints at which CPython `str.splitlines` breaks a line
(besides the combined CR LF): LF, VT, FF, CR, FS, GS, RS, NEL, LS, PS. -/
def LINE_BREAK_CODEPOINTS : List Nat :=
  [0xA, 0xB, 0xC, 0xD, 0x1C, 0x1D, 0x1E, 0x85, 0x2028, 0x2029]

def is_line_break_char (c : Char) : Bool :=
  LINE_BREAK_CODEPOINTS.contains c.toNat

/-- Fuses each CR LF pair into a single LF, the first phase of
`str.splitlines` (CR LF counts as one line break, not two). -/
def norm_crlf : List Char → List Char
  | [] => []
  | '\r' :: '\n' :: rest => '\n' :: norm_crlf rest
  | c :: rest => c :: norm_crlf rest

/-- Splits at each line-break character; a trailing break produces no final
empty line, matching `str.splitlines`. -/
def split_breaks : List Char → List Char → List (List Char)
  | [], acc => if acc.isEmpty then [] else [acc.reverse]
  | c :: rest, acc =>
    if is_line_break_char c then acc.reverse :: split_breaks rest []
    else split_breaks rest (c :: acc)

/-- Embeds CPython `str.splitlines` (keepends false). -/
def py_splitlines (text : List Char) : List (List Char) :=
  split_breaks (norm_crlf text) []

/-- Embeds the `Finding` dataclass.  The `name` and `category` display fields
(retrieved from `unicodedata` and used only in the report line) are omitted;
no verified property mentions them. -/
structure Finding where
  path : List Char
  line : Int
  col : Int
  codepoint : Int
  rendered_line : List Char
deriving DecidableEq

/-- Inner loop of `_scan_text`: one line, columns enumerated from 1. -/
def scan_line (path : List Char) (line_no : Int) (rendered : List Char) :
    Int → List Char → List Finding
  | _, [] => []
  | j, c :: rest =>
    if is_forbidden_char c then
      ⟨path, line_no, j, (c.toNat : Int), rendered⟩ :: scan_line path line_no rendered (j + 1) rest
    else scan_line path line_no rendered (j + 1) rest

/-- Outer loop of `_scan_text`: lines enumerated from `start_line`. -/
def scan_text_lines (path : List Char) : Int → List (List Char) → List Finding
  | _, [] => []
  | i, l :: rest => scan_line path i (render_line l) 1 l ++ scan_text_lines path (i + 1) rest

/-- Embeds `_scan_text`. -/
def scan_text (path : List Char) (text : List Char) (start_line : Int := 1) :
    List Finding :=
  scan_text_lines path start_line (py_splitlines text)

/-- Embeds `_is_probably_binary`.  The Python comparison
`nontext / len(sample) > 0.3` is evaluated in double-precision floats; since
`nontext` and `len(sample)` are at most 4096, no fraction `nontext/len` lies
strictly between the double nearest 0.3 and 3/10 itself (consecutive
fractions with denominator at most 4096 are at least 2^-24 apart, the float
error is below 2^-50), so the float test coincides with the exact rational
test `10 * nontext > 3 * len`. -/
def is_probably_binary (data : List Nat) : Bool :=
  if data.contains 0 then true
  else
    let sample := data.take 4096
    if sample.isEmpty then false
    else
      let nontext :=
        (sample.filter fun b => decide (b < 9) || (decide (13 < b) && decide (b < 32)) ||
          decide (b = 127)).length
      decide (3 * sample.length < 10 * nontext)

/-- Embeds `str.strip()`: removes leading and trailing whitespace. -/
def py_strip (s : List Char) : List Char :=
  ((s.dropWhile py_isspace).reverse.dropWhile py_isspace).reverse

/-- Decimal digit-string value, or `none` when empty or not all digits. -/
def digits_val (ds : List Char) : Option Int :=
  if ds.isEmpty ∨ ¬ds.all (fun c => c.isDigit) then none
  else some ((ds.foldl (fun acc c => acc * 10 + (c.toNat - 48)) 0 : Nat) : Int)

/-- Embeds `int(s)` on the strings the script feeds it (the hunk `start`
capture): optional sign then decimal digits, whitespace stripped; everything
else raises `ValueError` (`none`).  CPython additionally allows underscore
grouping between digits, which no `start` capture can contain. -/
def py_int (s : List Char) : Option Int :=
  match py_strip s with
  | '+' :: ds => digits_val ds
  | '-' :: ds => (digits_val ds).map (fun n => -n)
  | ds => digits_val ds

/-- The `ValueError` variants `shlex.split` can raise. -/
inductive ShlexError
  | noClosingQuotation
  | noEscapedCharacter
deriving DecidableEq

/-- Lexer mode of `shlex`: between/inside tokens, or inside a quote pair. -/
inductive ShlexMode
  | normal
  | inSingle
  | inDouble
deriving DecidableEq

/-- Embeds `shlex.split(s)` (POSIX mode, whitespace split, no comments) for
inputs free of CR and LF — the script only feeds it single lines out of
`str.splitlines`.  Tokens split at whitespace; single quotes quote literally;
inside double quotes a backslash escapes only `"` and `\` and is otherwise
kept; outside quotes a backslash escapes any character.  A trailing backslash
raises "No escaped character"; an unterminated quote raises "No closing
quotation".  `tok = some acc` means a token is in progress with its
characters accumulated in reverse. -/
def shlex_run : List Char → ShlexMode → Option (List Char) → List (List Char) →
    Except ShlexError (List (List Char))
  | [], .normal, tok, out =>
    .ok (out ++ (match tok with | some acc => [acc.reverse] | none => []))
  | [], .inSingle, _, _ => .error .noClosingQuotation
  | [], .inDouble, _, _ => .error .noClosingQuotation
  | c :: rest, .normal, tok, out =>
    if c = ' ' ∨ c = '\t' ∨ c = '\r' ∨ c = '\n' then
      match tok with
      | some acc => shlex_run rest .normal none (out ++ [acc.reverse])
      | none => shlex_run rest .normal none out
    else if c = '\'' then shlex_run rest .inSingle (some (tok.getD [])) out
    else if c = '"' then shlex_run rest .inDouble (some (tok.getD [])) out
    else if c = '\\' then
      match rest with
      | [] => .error .noEscapedCharacter
      | c2 :: rest2 => shlex_run rest2 .normal (some (c2 :: tok.getD [])) out
    else shlex_run rest .normal (some (c :: tok.getD [])) out
  | c :: rest, .inSingle, tok, out =>
    if c = '\'' then shlex_run rest .normal tok out
    else shlex_run rest .inSingle (some (c :: tok.getD [])) out
  | c :: rest, .inDouble, tok, out =>
    if c = '"' then shlex_run rest .normal tok out
    else if c = '\\' then
      match rest with
      | [] => .error .noEscapedCharacter
      | c2 :: rest2 =>
        if c2 = '"' ∨ c2 = '\\' then shlex_run rest2 .inDouble (some (c2 :: tok.getD [])) out
        else shlex_run rest2 .inDouble (some (c2 :: '\\' :: tok.getD [])) out
    else shlex_run rest .inDouble (some (c :: tok.getD [])) out

/-- Embeds `shlex.split(s)`. -/
def shlex_split (s : List Char) : Except ShlexError (List (List Char)) :=
  shlex_run s .normal none []

/-- The literal head of a `diff --git ` file-header line. -/
def DIFF_GIT_HEAD : List Char := ("diff --git ").data

/-- After the lazily matched `old` group, find the first space that still
leaves a nonempty `new` group running to the end of the line. -/
def find_new_after_space : List Char → Option (List Char)
  | [] => none
  | c :: rest =>
    if c = ' ' ∧ ¬rest.isEmpty then some rest else find_new_after_space rest

/-- Embeds `_DIFF_HEADER_RE.match(raw)` for the pattern
`^diff --git (?P<old>.+?) (?P<new>.+)$` and returns the `new` capture: the
line must start with `diff --git `, `old` is the shortest nonempty run up to
a space that leaves at least one character for `new`, and `new` runs to the
end of the line (the inputs contain no LF, so `.` matches every character and
`$` is end of line). -/
def diff_header_match (raw : List Char) : Option (List Char) :=
  if DIFF_GIT_HEAD.isPrefixOf raw then
    match raw.drop DIFF_GIT_HEAD.length with
    | [] => none
    | _ :: rest => find_new_after_space rest
  else none

/-- One-or-more run of the character `c`: the run and the remainder. -/
def char_run (c : Char) (cs : List Char) : Option (List Char × List Char) :=
  let run := cs.takeWhile (fun x => x = c)
  if run.isEmpty then none else some (run, cs.dropWhile (fun x => x = c))

/-- Consume `,` `\` `d+` when fully present, else leave the input unchanged
(the regex makes the group optional, and when it is skipped the following
mandatory characters cannot start with `,`, so skipping on a partial match is
exactly the backtracking behaviour). -/
def opt_comma_bs_ds (cs : List Char) : List Char :=
  match cs with
  | ',' :: '\\' :: rest =>
    match char_run 'd' rest with
    | some (_, after) => after
    | none => cs
  | _ => cs

/-- Embeds `_HUNK_RE.match(raw)` for the pattern compiled from the raw string
`"^@@ -\\d+(?:,\\d+)? \\+(?P<start>\\d+)(?:,(?P<count>\\d+))? @@"`.  In a raw
string the doubled backslash stands for two backslash characters, and in a
regular expression those match ONE literal backslash, after which `d+`
matches one or more letters `d`.  The compiled pattern therefore requires:
`@@ -`, one backslash, letters `d`, optionally `,` backslash `d`s, a space,
two or more backslashes followed by `d`s (`\\+` then the `start` group
`\\d+`, the group capturing the last backslash and the `d`s), optionally `,`
backslash `d`s, then ` @@` (the match is unanchored at the right).  Real hunk
headers such as `@@ -1,2 +1,3 @@` contain no backslash and never match.
Returns the text captured by `start`. -/
def hunk_match (raw : List Char) : Option (List Char) :=
  match raw with
  | '@' :: '@' :: ' ' :: '-' :: '\\' :: afterBs =>
    match char_run 'd' afterBs with
    | none => none
    | some (_, afterDs) =>
      match opt_comma_bs_ds afterDs with
      | ' ' :: afterSp =>
        match char_run '\\' afterSp with
        | none => none
        | some (bsRun, afterRun) =>
          if bsRun.length < 2 then none
          else
            match char_run 'd' afterRun with
            | none => none
            | some (ds, afterStart) =>
              if (" @@").data.isPrefixOf (opt_comma_bs_ds afterStart) then
                some ('\\' :: ds)
              else none
      | _ => none
  | _ => none

/-- One-or-more run of decimal digits: the run and the remainder. -/
def char_run_digits (cs : List Char) : Option (List Char × List Char) :=
  let run := cs.takeWhile (fun x => x.isDigit)
  if run.isEmpty then none else some (run, cs.dropWhile (fun x => x.isDigit))

/-- Consume `,` followed by digits when fully present, else leave the input
unchanged (optional regex group, as in `opt_comma_bs_ds`). -/
def opt_comma_digits (cs : List Char) : List Char :=
  match cs with
  | ',' :: rest =>
    match char_run_digits rest with
    | some (_, after) => after
    | none => cs
  | _ => cs

/-- Modelled from the spec: the hunk-header pattern
`@@ -old_start[,old_count] +new_start[,new_count] @@` with digit fields —
the regex the source evidently intended (`\d+` where the compiled pattern has
a literal backslash and letters `d`).  Returns the `new_start` capture. -/
def hunk_match_spec (raw : List Char) : Option (List Char) :=
  match raw with
  | '@' :: '@' :: ' ' :: '-' :: afterDash =>
    match char_run_digits afterDash with
    | none => none
    | some (_, afterDs) =>
      match opt_comma_digits afterDs with
      | ' ' :: '+' :: afterPlus =>
        match char_run_digits afterPlus with
        | none => none
        | some (ds, afterStart) =>
          if (" @@").data.isPrefixOf (opt_comma_digits afterStart) then some ds
          else none
      | _ => none
  | _ => none

/-- A Python `ValueError` escaping `_parse_diff_added_lines`. -/
inductive ParseError
  | shlexErr (e : ShlexError)
  | intValue (s : List Char)
deriving DecidableEq

/-- The `(path, new_line_number, added_line_text)` triple of the parser. -/
abbrev DiffRow := List Char × Int × List Char

/-- One iteration of the `_parse_diff_added_lines` loop, with the
hunk-header matcher as a parameter so the compiled pattern and the
spec-intended pattern can be compared.  The loop state is
`(current_path, new_line, rows)`; an iteration either raises a `ValueError`
or continues with the next state. -/
def parse_line_step (hunk : List Char → Option (List Char)) (raw : List Char)
    (current_path : Option (List Char)) (new_line : Option Int) (rows : List DiffRow) :
    Except ParseError (Option (List Char) × Option Int × List DiffRow) :=
  match diff_header_match raw with
  | some new_grp =>
    match shlex_split raw with
    | .error e => .error (.shlexErr e)
    | .ok parts =>
      let cp := if 4 ≤ parts.length then parts.getD 3 [] else new_grp
      .ok (some cp, none, rows)
  | none =>
    match hunk raw with
    | some start_grp =>
      match py_int start_grp with
      | none => .error (.intValue start_grp)
      | some n => .ok (current_path, some n, rows)
    | none =>
      match current_path, new_line with
      | some cp, some n =>
        if ("+++ ").data.isPrefixOf raw ∨ ("--- ").data.isPrefixOf raw then
          .ok (current_path, new_line, rows)
        else if ("\\ No newline at end of file").data.isPrefixOf raw then
          .ok (current_path, new_line, rows)
        else if ("+").data.isPrefixOf raw then
          .ok (current_path, some (n + 1), rows ++ [(cp, n, raw.drop 1)])
        else if ("-").data.isPrefixOf raw then
          .ok (current_path, new_line, rows)
        else if (" ").data.isPrefixOf raw then
          .ok (current_path, some (n + 1), rows)
        else .ok (current_path, new_line, rows)
      | _, _ => .ok (current_path, new_line, rows)

/-- The loop of `_parse_diff_added_lines`: fold `parse_line_step` over the
lines, propagating the first raised error. -/
def parse_rows (hunk : List Char → Option (List Char)) :
    List (List Char) → Option (List Char) → Option Int → List DiffRow →
    Except ParseError (List DiffRow)
  | [], _, _, rows => .ok rows
  | raw :: rest, current_path, new_line, rows =>
    match parse_line_step hunk raw current_path new_line rows with
    | .error e => .error e
    | .ok (cp2, nl2, rows2) => parse_rows hunk rest cp2 nl2 rows2

/-- Embeds `_parse_diff_added_lines`. -/
def parse_diff_added_lines (diff_text : List Char) : Except ParseError (List DiffRow) :=
  parse_rows hunk_match (py_splitlines diff_text) none none []

/-- Modelled from the spec: `_parse_diff_added_lines` as §4.5 describes it,
identical to the source except that hunk headers are recognized by the
intended digit pattern. -/
def parse_diff_added_lines_spec (diff_text : List Char) : Except ParseError (List DiffRow) :=
  parse_rows hunk_match_spec (py_splitlines diff_text) none none []

/-- A UTF-8 continuation byte. -/
def utf8_cont (b : Nat) : Bool :=
  decide (0x80 ≤ b ∧ b ≤ 0xBF)

/-- Valid second byte of a three-byte sequence led by `b1` (0xE0 tightens the
low end against overlong forms, 0xED the high end against surrogates). -/
def utf8_valid2_3 (b1 b2 : Nat) : Bool :=
  if b1 = 0xE0 then decide (0xA0 ≤ b2 ∧ b2 ≤ 0xBF)
  else if b1 = 0xED then decide (0x80 ≤ b2 ∧ b2 ≤ 0x9F)
  else utf8_cont b2

/-- Valid second byte of a four-byte sequence led by `b1` (0xF0 against
overlong forms, 0xF4 against codepoints past U+10FFFF). -/
def utf8_valid2_4 (b1 b2 : Nat) : Bool :=
  if b1 = 0xF0 then decide (0x90 ≤ b2 ∧ b2 ≤ 0xBF)
  else if b1 = 0xF4 then decide (0x80 ≤ b2 ∧ b2 ≤ 0x8F)
  else utf8_cont b2

/-- The replacement character U+FFFD. -/
def fffd : Char := Char.ofNat 0xFFFD

/-- One decoding step: given the lead byte and the remaining bytes, the
decoded character (U+FFFD on error) and the bytes still to decode. -/
def utf8_step (b : Nat) (rest : List Nat) : Char × List Nat :=
  if b < 0x80 then (Char.ofNat b, rest)
  else if b < 0xC2 then (fffd, rest)
  else if b ≤ 0xDF then
    match rest with
    | [] => (fffd, [])
    | b2 :: rest2 =>
      if utf8_cont b2 then (Char.ofNat ((b - 0xC0) * 0x40 + (b2 - 0x80)), rest2)
      else (fffd, rest)
  else if b ≤ 0xEF then
    match rest with
    | [] => (fffd, [])
    | b2 :: rest2 =>
      if utf8_valid2_3 b b2 then
        match rest2 with
        | [] => (fffd, [])
        | b3 :: rest3 =>
          if utf8_cont b3 then
            (Char.ofNat ((b - 0xE0) * 0x1000 + (b2 - 0x80) * 0x40 + (b3 - 0x80)), rest3)
          else (fffd, rest2)
      else (fffd, rest)
  else if b ≤ 0xF4 then
    match rest with
    | [] => (fffd, [])
    | b2 :: rest2 =>
      if utf8_valid2_4 b b2 then
        match rest2 with
        | [] => (fffd, [])
        | b3 :: rest3 =>
          if utf8_cont b3 then
            match rest3 with
            | [] => (fffd, [])
            | b4 :: rest4 =>
              if utf8_cont b4 then
                (Char.ofNat ((b - 0xF0) * 0x40000 + (b2 - 0x80) * 0x1000 +
                  (b3 - 0x80) * 0x40 + (b4 - 0x80)), rest4)
              else (fffd, rest3)
          else (fffd, rest2)
      else (fffd, rest)
  else (fffd, rest)

/-- Iterate `utf8_step`.  The fuel argument only serves structural
recursion: each step consumes at least the lead byte, so fuel equal to the
byte count never runs out and the `fuel = 0` arm is unreachable. -/
def utf8_decode_go : Nat → List Nat → List Char
  | _, [] => []
  | 0, _ :: _ => []
  | fuel + 1, b :: rest => (utf8_step b rest).1 :: utf8_decode_go fuel (utf8_step b rest).2

/-- Embeds `data.decode("utf-8", errors="replace")` (which also covers the
strict-then-replace fallback in `_scan_file`, since the replace decode agrees
with the strict decode whenever the latter succeeds).  CPython substitutes
one U+FFFD per maximal prefix of a valid sequence and one per invalid lead
byte, resuming at the first offending byte. -/
def utf8_decode_replace (data : List Nat) : List Char :=
  utf8_decode_go data.length data

/-- Outcome of one `subprocess.run` invocation as the script observes it. -/
structure ProcResult where
  returncode : Int
  stdout : List Char
  stderr : List Char

/-- The version-control and filesystem environment of one invocation: the
results of the five git commands the script can run, the `is_file` test and
the `read_bytes` read (`none` models `OSError`).  Repository-relative paths
serve as the canonical file identifiers: `(repo_root / rel).resolve()` and
the inverse `relative_to(...).as_posix()` in the source are modelled as the
identity on `rel`. -/
structure GitEnv where
  ls_files : ProcResult
  ls_others : ProcResult
  diff_cached : ProcResult
  diff_working : ProcResult
  diff_base : ProcResult
  is_file : List Char → Bool
  read_bytes : List Char → Option (List Nat)

/-- Embeds `_collect_tracked_files`: on a nonzero exit of `git ls-files` the
list is silently empty, otherwise the stdout lines are stripped, blank lines
dropped, and non-files dropped. -/
def collect_tracked_files (env : GitEnv) : List (List Char) :=
  if env.ls_files.returncode ≠ 0 then []
  else
    ((py_splitlines env.ls_files.stdout).map py_strip).filter
      (fun rel => !rel.isEmpty && env.is_file rel)

/-- Embeds `_collect_untracked` (`git ls-files --others --exclude-standard`),
with the same silent-empty behaviour on failure. -/
def collect_untracked (env : GitEnv) : List (List Char) :=
  if env.ls_others.returncode ≠ 0 then []
  else
    ((py_splitlines env.ls_others.stdout).map py_strip).filter
      (fun rel => !rel.isEmpty && env.is_file rel)

/-- Embeds `_scan_file`: unreadable files are skipped, binary-looking files
are skipped, everything else is decoded (UTF-8, replacement on error) and
scanned from line 1. -/
def scan_file (env : GitEnv) (rel : List Char) : List Finding :=
  match env.read_bytes rel with
  | none => []
  | some data =>
    if is_probably_binary data then []
    else scan_text rel (utf8_decode_replace data) 1

/-- An exception escaping `_scan_git_diff`: the `RuntimeError` it raises on a
nonzero diff exit (caught in `main`), or the `ValueError` that
`_parse_diff_added_lines` can raise (not caught anywhere). -/
inductive RunError
  | runtimeError (msg : List Char)
  | valueError (e : ParseError)

/-- Embeds `_scan_git_diff`: fatal `RuntimeError` on nonzero exit carrying
the stripped stderr (or `git diff failed` when that is empty); otherwise each
parsed row is rescanned, the finding is rebuilt with `line` forced to the
row's line number and the rendered snippet of the whole added line. -/
def scan_git_diff (proc : ProcResult) : Except RunError (List Finding) :=
  if proc.returncode ≠ 0 then
    .error (.runtimeError
      (let m := py_strip proc.stderr
       if m.isEmpty then ("git diff failed").data else m))
  else
    match parse_diff_added_lines proc.stdout with
    | .error e => .error (.valueError e)
    | .ok rows =>
      .ok ((rows.map fun r =>
        (scan_text r.fst r.snd.snd r.snd.fst).map fun f =>
          { f with line := r.snd.fst, rendered_line := render_line r.snd.snd }).flatten)

/-- The scan mode resolved from the command line (argument parsing itself is
out of scope; `dflt` is the no-flag default). -/
inductive ScanMode
  | all
  | baseRef
  | staged
  | dflt

/-- The observable outcome of `main`: a process exit code together with the
findings printed to stdout (empty on the clean and the fatal path), or an
uncaught `ValueError` (a Python traceback instead of a report). -/
inductive Outcome
  | exited (code : Nat) (printed : List Finding)
  | crashed (e : ParseError)
deriving DecidableEq

/-- Embeds the tail of `main`: exit 0 and the OK line on no findings, exit 1
and one printed line per finding otherwise. -/
def finish_run (findings : List Finding) : Outcome :=
  if findings.isEmpty then .exited 0 [] else .exited 1 findings

/-- Embeds `main` after mode resolution: the mode-specific aggregation, the
`except RuntimeError` handler mapping a diff failure to exit 2 with nothing
printed, and the final reporting. -/
def main_run (mode : ScanMode) (env : GitEnv) : Outcome :=
  match mode with
  | .all =>
    finish_run (((collect_tracked_files env).map (scan_file env)).flatten)
  | .baseRef =>
    match scan_git_diff env.diff_base with
    | .error (.runtimeError _) => .exited 2 []
    | .error (.valueError e) => .crashed e
    | .ok fs => finish_run fs
  | .staged =>
    match scan_git_diff env.diff_cached with
    | .error (.runtimeError _) => .exited 2 []
    | .error (.valueError e) => .crashed e
    | .ok fs =>
      finish_run (fs ++ ((collect_untracked env).map (scan_file env)).flatten)
  | .dflt =>
    match scan_git_diff env.diff_cached with
    | .error (.runtimeError _) => .exited 2 []
    | .error (.valueError e) => .crashed e
    | .ok fs1 =>
      match scan_git_diff env.diff_working with
      | .error (.runtimeError _) => .exited 2 []
      | .error (.valueError e) => .crashed e
      | .ok fs2 =>
        finish_run (fs1 ++ fs2 ++ ((collect_untracked env).map (scan_file env)).flatten)

/-- The six-line unified diff of the spec's §8 example. -/
def six_line_diff : List Char :=
  ("diff --git a.txt b.txt\n@@ -1,2 +1,3 @@\n-old\n+new1\n+new2\n context").data

/-- A text containing a vertical tab and a zero-width space but neither LF
nor CR. -/
def vt_zwsp_text : List Char := ['a', Char.ofNat 0x0B, Char.ofNat 0x200B]

/-- The §8 scanner example input: `safe`, a zero-width space, `danger`. -/
def safe_danger_text : List Char :=
  ("safe").data ++ [Char.ofNat 0x200B] ++ ("danger").data

/-- A `diff --git` header line with an unbalanced double quote in a path. -/
def unbalanced_quote_line : List Char := ("diff --git \"a.txt b.txt").data

/-- An environment in which the tracked-file listing command fails and every
other command succeeds vacuously. -/
def env_ls_fail : GitEnv :=
  { ls_files := ⟨1, [], ("boom").data⟩
    ls_others := ⟨0, [], []⟩
    diff_cached := ⟨0, [], []⟩
    diff_working := ⟨0, [], []⟩
    diff_base := ⟨0, [], []⟩
    is_file := fun _ => false
    read_bytes := fun _ => none }

/-- An environment in which every diff command fails. -/
def env_diff_fail : GitEnv :=
  { ls_files := ⟨0, [], []⟩
    ls_others := ⟨0, [], []⟩
    diff_cached := ⟨1, [], ("fatal: bad revision").data⟩
    diff_working := ⟨1, [], ("fatal: bad revision").data⟩
    diff_base := ⟨1, [], ("fatal: bad revision").data⟩
    is_file := fun _ => false
    read_bytes := fun _ => none }

/-- An environment whose every file consists of one zero-width space
(UTF-8 bytes E2 80 8B). -/
def env_zwsp : GitEnv :=
  { ls_files := ⟨0, ("a.txt").data, []⟩
    ls_others := ⟨0, ("a.txt").data, []⟩
    diff_cached := ⟨0, [], []⟩
    diff_working := ⟨0, [], []⟩
    diff_base := ⟨0, [], []⟩
    is_file := fun _ => true
    read_bytes := fun _ => some [0xE2, 0x80, 0x8B] }

/-- The finding `scan_file` produces on `env_zwsp`. -/
def zwsp_finding : Finding :=
  ⟨("a.txt").data, 1, 1, 0x200B, ['\\', 'u', '2', '0', '0', 'b']⟩

/-- C1: the code's hunk regex was compiled from a raw string with doubled
backslashes, so it never matches a real hunk header: on the spec's §8 diff
the parser returns no rows at all, while the same parser equipped with the
intended digit pattern returns the two rows the spec promises. -/
theorem c1_hunk_regex_never_matches :
    parse_diff_added_lines six_line_diff = .ok [] ∧
    parse_diff_added_lines_spec six_line_diff =
      .ok [(("b.txt").data, 1, ("new1").data), (("b.txt").data, 2, ("new2").data)] :=
  ⟨rfl, rfl⟩

/-- C5: scanning `safe​danger` from line 1 yields exactly one finding,
at line 1, column 5, codepoint 0x200B. -/
theorem c5_scan_zwsp :
    (scan_text ("f").data safe_danger_text 1).map
      (fun f => (f.line, f.col, f.codepoint)) = [(1, 5, 0x200B)] := rfl

/-- C2 counterexample: in All mode with the tracked-file listing command
exiting nonzero, the run exits 0 reporting a clean tree instead of the fatal
exit 2 the claim demands. -/
theorem c2_listing_failure_cex :
    env_ls_fail.ls_files.returncode ≠ 0 ∧
    main_run .all env_ls_fail = .exited 0 [] :=
  ⟨by decide, rfl⟩

/-- C3 counterexample: a text with no LF and no CR still produces a finding
on line 2 — the vertical tab started a new logical line, contradicting the
claim that only LF, CR and CR LF separate lines. -/
theorem c3_universal_newline_cex :
    vt_zwsp_text.contains '\n' = false ∧ vt_zwsp_text.contains '\r' = false ∧
    (scan_text ("f").data vt_zwsp_text 1).map Finding.line = [2] :=
  ⟨rfl, rfl, rfl⟩

/-- C9 counterexample: on the line `...` the escaped form is three characters
long, nothing is truncated, and yet the result ends with the three-dot
marker — "ends with the truncation marker exactly when the escaped form is
longer than max_length" fails. -/
theorem c9_marker_cex :
    (unicode_escape (("...").data)).length ≤ 240 ∧
    (['.', '.', '.'].isSuffixOf (render_line (("...").data))) = true :=
  ⟨by decide, by decide⟩

/-- C10 counterexample: a diff whose header line carries an unbalanced quote
makes `shlex.split` raise `ValueError: No closing quotation`, so
`parse_added_lines` is not exception-free. -/
theorem c10_unbalanced_quote_cex :
    parse_diff_added_lines unbalanced_quote_line =
      .error (.shlexErr .noClosingQuotation) := rfl

/-- C4: `is_forbidden_char` applies the five ordered rules exactly; it is a
total function on Lean's type of Unicode scalar values, defined without
side effects. -/
theorem c4_is_forbidden_ordered_rules (ch : Char) :
    (ALLOWED_WHITESPACE.contains ch = true → is_forbidden_char ch = false)
    ∧ (ALLOWED_WHITESPACE.contains ch = false → py_isspace ch = true →
        is_forbidden_char ch = true)
    ∧ (ALLOWED_WHITESPACE.contains ch = false → py_isspace ch = false →
        is_in_variation_selector_range ch.toNat = true → is_forbidden_char ch = true)
    ∧ (ALLOWED_WHITESPACE.contains ch = false → py_isspace ch = false →
        is_in_variation_selector_range ch.toNat = false →
        category_is_Cc_or_Cf ch = true → is_forbidden_char ch = true)
    ∧ (ALLOWED_WHITESPACE.contains ch = false → py_isspace ch = false →
        is_in_variation_selector_range ch.toNat = false →
        category_is_Cc_or_Cf ch = false → ch.toNat = 0x34F →
        is_forbidden_char ch = true)
    ∧ (ALLOWED_WHITESPACE.contains ch = false → py_isspace ch = false →
        is_in_variation_selector_range ch.toNat = false →
        category_is_Cc_or_Cf ch = false → ch.toNat ≠ 0x34F →
        is_forbidden_char ch = false) := by
  refine ⟨?_, ?_, ?_, ?_, ?_, ?_⟩ <;> intros <;> simp_all [is_forbidden_char]

/-- Witness for C4: one character per rule, each hypothesis discharged by
computation — space allowed, NBSP by whitespace, VS1 by range, ZWSP by
category `Cf`, U+034F by the explicit rule, `A` by the fall-through. -/
theorem c4_is_forbidden_ordered_rules_witness :
    is_forbidden_char ' ' = false ∧
    is_forbidden_char (Char.ofNat 0xA0) = true ∧
    is_forbidden_char (Char.ofNat 0xFE00) = true ∧
    is_forbidden_char (Char.ofNat 0x200B) = true ∧
    is_forbidden_char (Char.ofNat 0x34F) = true ∧
    is_forbidden_char 'A' = false :=
  ⟨(c4_is_forbidden_ordered_rules ' ').1 (by decide),
   (c4_is_forbidden_ordered_rules (Char.ofNat 0xA0)).2.1 (by decide) (by decide),
   (c4_is_forbidden_ordered_rules (Char.ofNat 0xFE00)).2.2.1 (by decide) (by decide) (by decide),
   (c4_is_forbidden_ordered_rules (Char.ofNat 0x200B)).2.2.2.1 (by decide) (by decide)
     (by decide) (by decide),
   (c4_is_forbidden_ordered_rules (Char.ofNat 0x34F)).2.2.2.2.1 (by decide) (by decide)
     (by decide) (by decide) (by decide),
   (c4_is_forbidden_ordered_rules 'A').2.2.2.2.2 (by decide) (by decide) (by decide)
     (by decide) (by decide)⟩

/-- C6: the binary heuristic returns true exactly when a NUL byte occurs
anywhere, or the first-4096-byte sample is nonempty and the fraction of
non-text control bytes (`b < 9`, `13 < b < 32`, or `b = 127`) in it strictly
exceeds 3/10; on an empty sample (no NUL) it returns false; it is a total
function.  The source compares in double-precision floats, which coincides
with the exact rational comparison for all numerators and denominators up to
4096 (see the definition's comment). -/
theorem c6_is_probably_binary_spec (data : List Nat) :
    is_probably_binary data = true ↔
      (0 ∈ data ∨ (data.take 4096 ≠ [] ∧
        (3 : ℚ) / 10 <
          (((data.take 4096).filter (fun b =>
            decide (b < 9) || (decide (13 < b) && decide (b < 32)) ||
              decide (b = 127))).length : ℚ) /
          ((data.take 4096).length : ℚ))) := by
  unfold is_probably_binary
  by_cases h0 : 0 ∈ data
  · simp [h0]
  · rw [if_neg (by simpa using h0)]
    by_cases hs : data.take 4096 = []
    · simp [hs, h0]
    · rw [if_neg (by simpa [List.isEmpty_iff] using hs)]
      simp only [h0, false_or, decide_eq_true_eq]
      set n := ((data.take 4096).filter (fun b =>
        decide (b < 9) || (decide (13 < b) && decide (b < 32)) ||
          decide (b = 127))).length with hn
      set L := (data.take 4096).length with hL'
      have hL : 0 < (L : ℚ) := by
        have hlen : 0 < L := List.length_pos.mpr hs
        exact_mod_cast hlen
      rw [div_lt_div_iff₀ (by norm_num) hL]
      constructor
      · intro h
        refine ⟨hs, ?_⟩
        exact_mod_cast (by omega : 3 * L < n * 10)
      · rintro ⟨-, h⟩
        have h2 : 3 * L < n * 10 := by exact_mod_cast h
        omega

/-- C2 as amended: a nonzero exit of the tracked-file listing command
silently yields an empty file list and the run proceeds; in All mode a
listing failure with nothing else to scan exits 0 reporting a clean tree,
not 2.  (Only the diff commands are fatal, see the C7 theorem.) -/
theorem c2_listing_failure_amended (env : GitEnv) (h : env.ls_files.returncode ≠ 0) :
    collect_tracked_files env = [] ∧ main_run .all env = .exited 0 [] := by
  have hc : collect_tracked_files env = [] := by simp [collect_tracked_files, h]
  exact ⟨hc, by simp [main_run, hc, finish_run]⟩

/-- Witness for C2 amended at the concrete failing-listing environment. -/
theorem c2_listing_failure_amended_witness :
    collect_tracked_files env_ls_fail = [] ∧ main_run .all env_ls_fail = .exited 0 [] :=
  c2_listing_failure_amended env_ls_fail (by decide)

/-- Flattening `split_breaks` yields exactly the non-break characters, in order. -/
theorem split_breaks_flatten (cs : List Char) :
    ∀ acc, (split_breaks cs acc).flatten =
      acc.reverse ++ cs.filter (fun c => !is_line_break_char c) := by
  induction cs with
  | nil =>
    intro acc
    by_cases h : acc.isEmpty
    · simp [split_breaks, h, List.isEmpty_iff.mp h]
    · simp [split_breaks, h]
  | cons c rest ih =>
    intro acc
    cases hb : is_line_break_char c with
    | true => simp [split_breaks, hb, ih]
    | false => simp [split_breaks, hb, ih (c :: acc), List.append_assoc]

/-- The CR-LF fusion preserves the non-break characters. -/
theorem norm_crlf_filter (cs : List Char) :
    (norm_crlf cs).filter (fun c => !is_line_break_char c) =
      cs.filter (fun c => !is_line_break_char c) := by
  induction cs using norm_crlf.induct with
  | case1 => rfl
  | case2 rest ih =>
    have h1 : (!is_line_break_char '\n') = false := by decide
    have h2 : (!is_line_break_char '\x0d') = false := by decide
    simp [norm_crlf, List.filter_cons, h1, h2, ih]
  | case3 c rest h ih => simp [norm_crlf, List.filter_cons, ih]

/-- Every line `split_breaks` emits consists of non-break characters. -/
theorem split_breaks_all_nonbreak (cs : List Char) :
    ∀ acc, acc.all (fun c => !is_line_break_char c) = true →
      (split_breaks cs acc).all (fun l => l.all (fun c => !is_line_break_char c)) = true := by
  induction cs with
  | nil =>
    intro acc h
    by_cases he : acc.isEmpty <;> simp [split_breaks, he, List.all_reverse, h]
  | cons c rest ih =>
    intro acc h
    cases hb : is_line_break_char c with
    | true => simp [split_breaks, hb, List.all_reverse, h, ih [] rfl]
    | false =>
      have : (c :: acc).all (fun x => !is_line_break_char x) = true := by simp [hb, h]
      simpa [split_breaks, hb] using ih (c :: acc) this

/-- C3 as amended: the scanner's line splitting is CPython `str.splitlines`:
it breaks at LF, VT, FF, CR (CR LF counting as a single break), FS, GS, RS,
NEL (U+0085), LS (U+2028) and PS (U+2029); the separator characters are
consumed — every emitted line is separator-free and the lines flatten to
exactly the non-separator characters in order. -/
theorem c3_splitlines_amended (text : List Char) :
    (py_splitlines text).flatten = text.filter (fun c => !is_line_break_char c)
    ∧ (py_splitlines text).all
        (fun l => l.all (fun c => !is_line_break_char c)) = true := by
  constructor
  · rw [py_splitlines, split_breaks_flatten, norm_crlf_filter]
    simp
  · exact split_breaks_all_nonbreak _ [] rfl

/-- Each finding of `scan_line` carries the given line number, a column at
least the starting column, and a nonnegative codepoint. -/
theorem scan_line_mem (path : List Char) (ln : Int) (rend : List Char) :
    ∀ j cs f, f ∈ scan_line path ln rend j cs →
      f.line = ln ∧ j ≤ f.col ∧ 0 ≤ f.codepoint := by
  intro j cs
  induction cs generalizing j with
  | nil => intro f hf; simp [scan_line] at hf
  | cons c rest ih =>
    intro f hf
    cases hb : is_forbidden_char c with
    | true =>
      rw [scan_line, if_pos hb] at hf
      rcases List.mem_cons.mp hf with rfl | hf
      · exact ⟨rfl, le_refl _, Int.natCast_nonneg c.toNat⟩
      · obtain ⟨h1, h2, h3⟩ := ih (j + 1) f hf
        exact ⟨h1, by omega, h3⟩
    | false =>
      rw [scan_line, if_neg (by simp [hb])] at hf
      obtain ⟨h1, h2, h3⟩ := ih (j + 1) f hf
      exact ⟨h1, by omega, h3⟩

/-- Each finding of `scan_text_lines` sits at or after the starting line, in
a column at least 1, with a nonnegative codepoint. -/
theorem scan_text_lines_mem (path : List Char) :
    ∀ i ls f, f ∈ scan_text_lines path i ls →
      i ≤ f.line ∧ 1 ≤ f.col ∧ 0 ≤ f.codepoint := by
  intro i ls
  induction ls generalizing i with
  | nil => intro f hf; simp [scan_text_lines] at hf
  | cons l rest ih =>
    intro f hf
    rw [scan_text_lines] at hf
    rcases List.mem_append.mp hf with h | h
    · obtain ⟨h1, h2, h3⟩ := scan_line_mem path i (render_line l) 1 l f h
      exact ⟨le_of_eq h1.symm, h2, h3⟩
    · obtain ⟨h1, h2, h3⟩ := ih (i + 1) f h
      exact ⟨by omega, h2, h3⟩

/-- Findings of `scan_text` respect the starting line and 1-based columns. -/
theorem scan_text_mem (path text : List Char) (s : Int) (f : Finding)
    (hf : f ∈ scan_text path text s) :
    s ≤ f.line ∧ 1 ≤ f.col ∧ 0 ≤ f.codepoint :=
  scan_text_lines_mem path s (py_splitlines text) f hf

/-- Anything the compiled hunk pattern captures starts with a backslash. -/
theorem hunk_match_shape (raw g : List Char) (h : hunk_match raw = some g) :
    ∃ t, g = '\\' :: t := by
  unfold hunk_match at h
  repeat' split at h
  all_goals simp_all
  subst h
  exact ⟨_, rfl⟩

/-- Dropping a prefix from a list whose last element fails the predicate
leaves that element on top after reversal. -/
theorem dropWhile_append_last {p : Char → Bool} (l : List Char) (a : Char)
    (ha : p a = false) :
    ∃ u, (List.dropWhile p (l ++ [a])).reverse = a :: u := by
  induction l with
  | nil => exact ⟨[], by simp [List.dropWhile_cons, ha]⟩
  | cons c l ih =>
    by_cases hc : p c = true
    · simpa [List.dropWhile_cons, hc] using ih
    · refine ⟨l.reverse ++ [c], ?_⟩
      rw [List.cons_append, List.dropWhile_cons, if_neg (by simp [hc])]
      simp

/-- Stripping whitespace cannot remove a leading backslash. -/
theorem py_strip_backslash_head (t : List Char) :
    ∃ u, py_strip ('\\' :: t) = '\\' :: u := by
  unfold py_strip
  have hbs : py_isspace '\\' = false := by decide
  rw [List.dropWhile_cons, if_neg (by simp [hbs])]
  obtain ⟨u, hu⟩ := dropWhile_append_last (p := py_isspace) t.reverse '\\' hbs
  rw [show ('\\' :: t).reverse = t.reverse ++ ['\\'] by simp]
  exact ⟨u, hu⟩

/-- Python `int` rejects every string that begins with a backslash. -/
theorem py_int_backslash (t : List Char) : py_int ('\\' :: t) = none := by
  obtain ⟨u, hu⟩ := py_strip_backslash_head t
  unfold py_int
  rw [hu]
  simp [digits_val]

/-- With the compiled hunk pattern a single loop iteration started without a
line counter cannot acquire one and cannot add rows: a header resets the
counter, a matching hunk line always makes `int` raise, and every other line
is skipped. -/
theorem parse_line_step_none (raw : List Char) (cp : Option (List Char))
    (rows : List DiffRow) (cp2 : Option (List Char)) (nl2 : Option Int)
    (rows2 : List DiffRow)
    (h : parse_line_step hunk_match raw cp none rows = .ok (cp2, nl2, rows2)) :
    nl2 = none ∧ rows2 = rows := by
  unfold parse_line_step at h
  cases hh : diff_header_match raw with
  | some g =>
    simp only [hh] at h
    cases hs : shlex_split raw with
    | error e => simp only [hs] at h; exact Except.noConfusion h
    | ok parts =>
      simp only [hs] at h
      cases h
      exact ⟨rfl, rfl⟩
  | none =>
    simp only [hh] at h
    cases hm : hunk_match raw with
    | some g =>
      obtain ⟨t, rfl⟩ := hunk_match_shape raw g hm
      simp only [hm, py_int_backslash] at h
      exact Except.noConfusion h
    | none =>
      cases cp with
      | none => simp only [hm] at h; cases h; exact ⟨rfl, rfl⟩
      | some q => simp only [hm] at h; cases h; exact ⟨rfl, rfl⟩

/-- With the compiled hunk pattern the parser never acquires a line counter:
every successful parse returns the rows it started with. -/
theorem parse_rows_hunk_no_rows :
    ∀ (lines : List (List Char)) (cp : Option (List Char)) (rows r : List DiffRow),
      parse_rows hunk_match lines cp none rows = .ok r → r = rows := by
  intro lines
  induction lines with
  | nil =>
    intro cp rows r h
    simp only [parse_rows] at h
    cases h
    rfl
  | cons raw rest ih =>
    intro cp rows r h
    rw [parse_rows] at h
    cases hst : parse_line_step hunk_match raw cp none rows with
    | error e => simp only [hst] at h; exact Except.noConfusion h
    | ok st =>
      obtain ⟨cp2, nl2, rows2⟩ := st
      obtain ⟨hnl, hrows⟩ := parse_line_step_none raw cp rows cp2 nl2 rows2 hst
      subst hnl
      subst hrows
      simp only [hst] at h
      exact ih _ _ _ h

/-- A successful `_scan_git_diff` finds nothing: the broken hunk pattern
means the parser either raises or returns no rows. -/
theorem scan_git_diff_ok_empty (proc : ProcResult) (fs : List Finding)
    (h : scan_git_diff proc = .ok fs) : fs = [] := by
  unfold scan_git_diff at h
  by_cases hr : proc.returncode ≠ 0
  · rw [if_pos hr] at h; cases h
  · rw [if_neg hr] at h
    cases hp : parse_diff_added_lines proc.stdout with
    | error e => simp only [hp] at h; exact Except.noConfusion h
    | ok rows =>
      simp only [hp] at h
      have hrows : rows = [] :=
        parse_rows_hunk_no_rows (py_splitlines proc.stdout) none [] rows
          (by simpa [parse_diff_added_lines] using hp)
      subst hrows
      cases h
      rfl

/-- C8: every finding any scan path can produce satisfies the data-model
invariant: `line ≥ 1`, `col ≥ 1`, `codepoint ≥ 0`.  (Full-file scans start
at line 1 with 1-based columns; the diff path produces no findings at all.) -/
theorem c8_finding_invariants :
    (∀ env rel f, f ∈ scan_file env rel →
      1 ≤ f.line ∧ 1 ≤ f.col ∧ 0 ≤ f.codepoint)
    ∧ (∀ proc fs f, scan_git_diff proc = .ok fs → f ∈ fs →
      1 ≤ f.line ∧ 1 ≤ f.col ∧ 0 ≤ f.codepoint) := by
  constructor
  · intro env rel f hf
    unfold scan_file at hf
    cases hb : env.read_bytes rel with
    | none => simp only [hb] at hf; simp at hf
    | some data =>
      simp only [hb] at hf
      by_cases hbin : is_probably_binary data = true
      · rw [if_pos hbin] at hf; simp at hf
      · rw [if_neg hbin] at hf
        exact scan_text_mem rel (utf8_decode_replace data) 1 f hf
  · intro proc fs f hok hf
    rw [scan_git_diff_ok_empty proc fs hok] at hf
    simp at hf

/-- Witness for C8: the concrete zero-width-space finding produced by a file
scan satisfies the invariant. -/
theorem c8_finding_invariants_witness :
    1 ≤ zwsp_finding.line ∧ 1 ≤ zwsp_finding.col ∧ 0 ≤ zwsp_finding.codepoint :=
  c8_finding_invariants.1 env_zwsp (("a.txt").data) zwsp_finding (by
    have h : scan_file env_zwsp (("a.txt").data) = [zwsp_finding] := by decide
    rw [h]
    exact List.mem_singleton.mpr rfl)

/-- Outcomes of the reporting tail of `main`. -/
theorem finish_run_exited (fs : List Finding) (c : Nat) (p : List Finding)
    (h : finish_run fs = .exited c p) :
    (c = 0 ∧ p = [] ∧ fs = []) ∨ (c = 1 ∧ p = fs ∧ fs ≠ []) := by
  unfold finish_run at h
  by_cases he : fs.isEmpty = true
  · rw [if_pos he] at h
    injection h with h1 h2
    exact Or.inl ⟨h1.symm, h2.symm, List.isEmpty_iff.mp he⟩
  · rw [if_neg he] at h
    injection h with h1 h2
    exact Or.inr ⟨h1.symm, h2.symm, by simpa [List.isEmpty_iff] using he⟩

/-- A failing diff command surfaces as the `RuntimeError` carrying the
stripped stderr (or the fallback message). -/
theorem scan_git_diff_fail (proc : ProcResult) (h : proc.returncode ≠ 0) :
    scan_git_diff proc = .error (.runtimeError
      (let m := py_strip proc.stderr
       if m.isEmpty then ("git diff failed").data else m)) := by
  unfold scan_git_diff
  rw [if_pos h]

/-- C7: whenever `main` exits, the code is 0, 1 or 2; it is 1 exactly when
findings were printed, and on 0 or 2 nothing is printed; moreover in every
mode that runs a diff, a nonzero diff exit forces exit 2 with no findings
printed. -/
theorem c7_exit_codes (env : GitEnv) :
    (∀ mode c p, main_run mode env = .exited c p →
        (c = 0 ∨ c = 1 ∨ c = 2) ∧ (c = 1 ↔ p ≠ []) ∧ ((c = 0 ∨ c = 2) → p = []))
    ∧ (env.diff_base.returncode ≠ 0 → main_run .baseRef env = .exited 2 [])
    ∧ (env.diff_cached.returncode ≠ 0 →
        main_run .staged env = .exited 2 [] ∧ main_run .dflt env = .exited 2 [])
    ∧ (∀ fs, scan_git_diff env.diff_cached = .ok fs →
        env.diff_working.returncode ≠ 0 → main_run .dflt env = .exited 2 []) := by
  have key : ∀ (fs : List Finding) (c : Nat) (p : List Finding), finish_run fs = .exited c p →
      (c = 0 ∨ c = 1 ∨ c = 2) ∧ (c = 1 ↔ p ≠ []) ∧ ((c = 0 ∨ c = 2) → p = []) := by
    intro fs c p hf
    rcases finish_run_exited fs c p hf with ⟨rfl, rfl, rfl⟩ | ⟨rfl, rfl, hne⟩
    · exact ⟨Or.inl rfl, by simp, fun _ => rfl⟩
    · exact ⟨Or.inr (Or.inl rfl), by simp [hne], by simp⟩
  have key2 : ∀ (c : Nat) (p : List Finding), Outcome.exited 2 [] = .exited c p →
      (c = 0 ∨ c = 1 ∨ c = 2) ∧ (c = 1 ↔ p ≠ []) ∧ ((c = 0 ∨ c = 2) → p = []) := by
    intro c p h
    injection h with h1 h2
    subst h1; subst h2
    exact ⟨Or.inr (Or.inr rfl), by simp, fun _ => rfl⟩
  refine ⟨?_, ?_, ?_, ?_⟩
  · intro mode c p h
    cases mode with
    | all => exact key _ _ _ h
    | baseRef =>
      simp only [main_run] at h
      cases hd : scan_git_diff env.diff_base with
      | error e =>
        cases e with
        | runtimeError m => simp only [hd] at h; exact key2 _ _ h
        | valueError e => simp only [hd] at h; exact Outcome.noConfusion h
      | ok fs => simp only [hd] at h; exact key _ _ _ h
    | staged =>
      simp only [main_run] at h
      cases hd : scan_git_diff env.diff_cached with
      | error e =>
        cases e with
        | runtimeError m => simp only [hd] at h; exact key2 _ _ h
        | valueError e => simp only [hd] at h; exact Outcome.noConfusion h
      | ok fs => simp only [hd] at h; exact key _ _ _ h
    | dflt =>
      simp only [main_run] at h
      cases hd : scan_git_diff env.diff_cached with
      | error e =>
        cases e with
        | runtimeError m => simp only [hd] at h; exact key2 _ _ h
        | valueError e => simp only [hd] at h; exact Outcome.noConfusion h
      | ok fs1 =>
        simp only [hd] at h
        cases hw : scan_git_diff env.diff_working with
        | error e =>
          cases e with
          | runtimeError m => simp only [hw] at h; exact key2 _ _ h
          | valueError e => simp only [hw] at h; exact Outcome.noConfusion h
        | ok fs2 => simp only [hw] at h; exact key _ _ _ h
  · intro h
    have hb := scan_git_diff_fail env.diff_base h
    simp only [main_run, hb]
  · intro h
    have hc := scan_git_diff_fail env.diff_cached h
    exact ⟨by simp only [main_run, hc], by simp only [main_run, hc]⟩
  · intro fs hok h
    have hw := scan_git_diff_fail env.diff_working h
    simp only [main_run, hok, hw]

/-- Witness for C7: in the environment whose diff commands all fail, the
staged and base-ref modes exit 2 printing nothing, and the exit-code
trichotomy holds of that outcome. -/
theorem c7_exit_codes_witness :
    main_run .staged env_diff_fail = .exited 2 [] ∧
    main_run .baseRef env_diff_fail = .exited 2 [] ∧
    (((2 : Nat) = 0 ∨ (2 : Nat) = 1 ∨ (2 : Nat) = 2) ∧
      ((2 : Nat) = 1 ↔ ([] : List Finding) ≠ []) ∧
      (((2 : Nat) = 0 ∨ (2 : Nat) = 2) → ([] : List Finding) = [])) :=
  ⟨((c7_exit_codes env_diff_fail).2.2.1 (by decide)).1,
   (c7_exit_codes env_diff_fail).2.1 (by decide),
   (c7_exit_codes env_diff_fail).1 .staged 2 []
     (((c7_exit_codes env_diff_fail).2.2.1 (by decide)).1)⟩

/-- C9 as amended: with the default `max_length = 240`, the rendered line is
capped at 240 characters; when the escaped form exceeds 240 characters the
result is its first 237 characters followed by the `...` marker (so it ends
with the marker); otherwise the escaped form is returned unchanged — which
may itself happen to end in three dots, as the counterexample shows. -/
theorem c9_render_amended (line : List Char) :
    (render_line line).length ≤ 240
    ∧ render_line line = (if 240 < (unicode_escape line).length then
        (unicode_escape line).take 237 ++ ['.', '.', '.'] else unicode_escape line)
    ∧ (240 < (unicode_escape line).length →
        (['.', '.', '.'].isSuffixOf (render_line line)) = true) := by
  unfold render_line
  by_cases h : 240 < (unicode_escape line).length
  · rw [if_pos h]
    refine ⟨?_, rfl, fun _ => ?_⟩
    · simp [List.length_take]
    · simp
  · rw [if_neg h]
    exact ⟨by omega, rfl, fun hc => absurd hc h⟩

/-- Witness for C9 amended: a line of 121 backslashes escapes to 242
characters, is truncated, and ends with the marker. -/
theorem c9_render_amended_witness :
    (['.', '.', '.'].isSuffixOf (render_line (List.replicate 121 '\\'))) = true :=
  (c9_render_amended (List.replicate 121 '\\')).2.2 (by decide)

/-- A loop iteration succeeds on any line that either shlex-splits cleanly
when it is a header, or does not match the hunk pattern. -/
theorem parse_line_step_ok (raw : List Char) (cp : Option (List Char))
    (nl : Option Int) (rows : List DiffRow)
    (h1 : (diff_header_match raw).isSome = true → (shlex_split raw).isOk = true)
    (h2 : hunk_match raw = none) :
    ∃ st, parse_line_step hunk_match raw cp nl rows = .ok st := by
  unfold parse_line_step
  cases hh : diff_header_match raw with
  | some g =>
    have hok := h1 (by simp [hh])
    cases hs : shlex_split raw with
    | error e => rw [hs] at hok; simp [Except.isOk, Except.toBool] at hok
    | ok parts => simp only [hs]; exact ⟨_, rfl⟩
  | none =>
    simp only [h2]
    cases cp with
    | none => exact ⟨_, rfl⟩
    | some q =>
      cases nl with
      | none => exact ⟨_, rfl⟩
      | some n =>
        repeat' split
        all_goals exact ⟨_, rfl⟩

/-- The parser loop succeeds on any line list whose header-matching lines
shlex-split cleanly and whose lines never match the hunk pattern. -/
theorem parse_rows_ok_of (lines : List (List Char)) :
    ∀ cp nl rows,
      (∀ l ∈ lines, (diff_header_match l).isSome = true → (shlex_split l).isOk = true) →
      (∀ l ∈ lines, hunk_match l = none) →
      ∃ r, parse_rows hunk_match lines cp nl rows = .ok r := by
  induction lines with
  | nil => intro cp nl rows _ _; exact ⟨rows, rfl⟩
  | cons raw rest ih =>
    intro cp nl rows h1 h2
    have h1r : ∀ l ∈ rest, (diff_header_match l).isSome = true → (shlex_split l).isOk = true :=
      fun l hl => h1 l (List.mem_cons_of_mem _ hl)
    have h2r : ∀ l ∈ rest, hunk_match l = none :=
      fun l hl => h2 l (List.mem_cons_of_mem _ hl)
    obtain ⟨st, hst⟩ := parse_line_step_ok raw cp nl rows
      (h1 raw (List.mem_cons_self _ _)) (h2 raw (List.mem_cons_self _ _))
    rw [parse_rows]
    obtain ⟨cp2, nl2, rows2⟩ := st
    simp only [hst]
    exact ih _ _ _ h1r h2r

/-- C10 as amended: `parse_added_lines` always terminates, and it returns a
list whenever no header-matching line makes `shlex.split` raise and no line
matches the compiled hunk pattern; a `diff --git` line with an unbalanced
quote, or any line the hunk pattern accepts, raises `ValueError` instead
(see the counterexample). -/
theorem c10_parse_total_amended (s : List Char)
    (h1 : ∀ l ∈ py_splitlines s,
      (diff_header_match l).isSome = true → (shlex_split l).isOk = true)
    (h2 : ∀ l ∈ py_splitlines s, hunk_match l = none) :
    ∃ rows, parse_diff_added_lines s = .ok rows :=
  parse_rows_ok_of (py_splitlines s) none none [] h1 h2

/-- Witness for C10 amended: the §8 example diff parses without raising. -/
theorem c10_parse_total_amended_witness :
    ∃ rows, parse_diff_added_lines six_line_diff = .ok rows :=
  c10_parse_total_amended six_line_diff (by decide) (by decide)

end CheckInvisibleChars
